import Mathlib

/-!
Verification of the event-engine core of the repository
(src/event_engine.py together with the administrative operations of
src/app.py).  Python functions are shallowly embedded as Lean functions:
dictionaries become association lists, datetimes become a record of the
fields the code reads, raised exceptions become Except / Option, and the
external world (filesystem, MCP tool registry, dynamically loaded
scripts) becomes an explicit record of functions.
-/

namespace EventEngine

/-- Association-list lookup, modelling Python `dict.get`. -/
def lookupA {α : Type} : List (String × α) → String → Option α
  | [], _ => none
  | p :: t, key => if p.1 = key then some p.2 else lookupA t key

/-- Association-list update, modelling Python `d[key] = value`
(replace the binding when the key is present, append otherwise). -/
def setA {α : Type} : List (String × α) → String → α → List (String × α)
  | [], key, v => [(key, v)]
  | p :: t, key, v =>
      if p.1 = key then (key, v) :: t else p :: setA t key v

/-- Association-list deletion, modelling Python `del d[key]`
(on dictionaries every key occurs at most once, so removing every pair
with the key is the same operation). -/
def delA {α : Type} (l : List (String × α)) (key : String) : List (String × α) :=
  l.filter (fun p => p.1 ≠ key)

/-- The fields of a Python `datetime` the engine reads.  `epoch` models the
point on the absolute time line: `(a - b).total_seconds()` is
`a.epoch - b.epoch` (a rational, since datetimes have sub-second
precision).  `weekday` is the Python convention, Monday = 0 … Sunday = 6.
The calendar fields are carried separately because the code reads them
separately; the engine never cross-checks them against `epoch`. -/
structure PyDatetime where
  epoch   : ℚ
  year    : Nat
  month   : Nat
  day     : Nat
  hour    : Nat
  minute  : Nat
  weekday : Nat
deriving DecidableEq, Repr

/-- Python regex `\s` restricted to ASCII (space, tab, newline, carriage
return, vertical tab, form feed); also the whitespace set used to model
`str.strip` and `str.split`. -/
def isPySpace (c : Char) : Bool :=
  c = ' ' || c = '\t' || c = '\n' || c = '\r' || c = Char.ofNat 11 || c = Char.ofNat 12

/-- Split a character list at every character satisfying `p`, keeping empty
pieces, as Python `str.split(sep)` does for a one-character separator. -/
def splitPredC (p : Char → Bool) : List Char → List (List Char)
  | [] => [[]]
  | c :: t =>
    let r := splitPredC p t
    if p c then [] :: r
    else
      match r with
      | h :: t2 => (c :: h) :: t2
      | [] => [[c]]

/-- Python `s.split(sep)` for a one-character separator. -/
def splitOnC (sep : Char) : List Char → List (List Char) :=
  splitPredC (fun c => c = sep)

/-- Join with a one-character separator (inverse of `splitOnC`), used to model
Python `split(sep, maxsplit = 1)`: the tail pieces are joined back. -/
def joinC (sep : Char) : List (List Char) → List Char
  | [] => []
  | [p] => p
  | p :: ps => p ++ sep :: joinC sep ps

/-- Python `str.split()` with no arguments: split on whitespace runs,
discarding empty pieces. -/
def pySplitWsC (cs : List Char) : List (List Char) :=
  (splitPredC isPySpace cs).filter (fun t => t ≠ [])

/-- Python `str.strip()` with no arguments (ASCII whitespace model). -/
def stripC (cs : List Char) : List Char :=
  ((cs.dropWhile isPySpace).reverse.dropWhile isPySpace).reverse

/-- Numeric value of a decimal digit run. -/
def natOfDigits (ds : List Char) : Nat :=
  ds.foldl (fun a c => 10 * a + (c.toNat - 48)) 0

/-- Python `int(s)` on the shapes the engine can meet: optional sign and a
nonempty decimal digit run, surrounding whitespace stripped.  Returns
`none` where Python raises `ValueError`. -/
def pyIntC (cs : List Char) : Option Int :=
  match stripC cs with
  | '-' :: ds =>
    if ds ≠ [] ∧ ds.all Char.isDigit then some (-(natOfDigits ds : Int)) else none
  | '+' :: ds =>
    if ds ≠ [] ∧ ds.all Char.isDigit then some (natOfDigits ds : Int) else none
  | ds =>
    if ds ≠ [] ∧ ds.all Char.isDigit then some (natOfDigits ds : Int) else none

/-- Python `range(start, stop, step)` for a positive step, as a list. -/
def pyRangePos (start stop : Int) (step : Nat) : List Int :=
  let len : Nat := if start < stop then (stop - start - 1).toNat / step + 1 else 0
  (List.range len).map (fun (i : Nat) => start + (step : Int) * (i : Int))

/-- Python `range(start, stop, step)` for a negative step `-stepAbs`. -/
def pyRangeNeg (start stop : Int) (stepAbs : Nat) : List Int :=
  let len : Nat := if stop < start then (start - stop - 1).toNat / stepAbs + 1 else 0
  (List.range len).map (fun (i : Nat) => start - (stepAbs : Int) * (i : Int))

/-- Python `range(start, stop, step)`: `none` models the `ValueError` raised
for a zero step. -/
def pyRange (start stop step : Int) : Option (List Int) :=
  if step = 0 then none
  else if 0 < step then some (pyRangePos start stop step.toNat)
  else some (pyRangeNeg start stop (-step).toNat)

/-- One comma-separated part of a cron field, as in `_parse_cron_field`:
the `/` test comes first, then the `-` test, then `*`, then a literal.
`none` models a raised `ValueError` (unparseable integer, zero step).
Python `split(sep, maxsplit = 1)` is modelled by splitting fully and
joining the tail pieces back. -/
def parseCronPart (part : List Char) (lo hi : Int) : Option (List Int) :=
  if part.contains '/' then
    match splitOnC '/' part with
    | [] => none
    | base :: rest =>
      let stepStr := joinC '/' rest
      match (if base = "*".toList then some lo else pyIntC base), pyIntC stepStr with
      | some start, some step => pyRange start (hi + 1) step
      | _, _ => none
  else if part.contains '-' then
    match splitOnC '-' part with
    | [] => none
    | a :: rest =>
      let bStr := joinC '-' rest
      match pyIntC a, pyIntC bStr with
      | some av, some bv => pyRange av (bv + 1) 1
      | _, _ => none
  else if part = "*".toList then
    pyRange lo (hi + 1) 1
  else
    (pyIntC part).map (fun n => [n])

/-- `_parse_cron_field`: expand one cron field into its set of integers
(modelled as a list, only membership is ever used).  `none` models a
raised `ValueError`. -/
def parseCronField (s : List Char) (lo hi : Int) : Option (List Int) :=
  (splitOnC ',' s).foldlM
    (fun acc part => (parseCronPart part lo hi).map (fun r => acc ++ r)) []

/-- `_cron_matches`: `none` models the `IndexError` raised when the rule has
fewer than five fields, or a `ValueError` from `_parse_cron_field`.
The day-of-week is converted from the Python convention (Mon = 0) to the
cron convention (Sun = 0) by `(weekday + 1) % 7`. -/
def cronMatches (cron : String) (dt : PyDatetime) : Option Bool :=
  match pySplitWsC (stripC cron.toList) with
  | f0 :: f1 :: f2 :: f3 :: f4 :: _ =>
    match parseCronField f0 0 59, parseCronField f1 0 23,
          parseCronField f2 1 31, parseCronField f3 1 12,
          parseCronField f4 0 6 with
    | some mins, some hrs, some doms, some months, some dows =>
      let cronDow : Nat := (dt.weekday + 1) % 7
      some (mins.contains (dt.minute : Int) && hrs.contains (dt.hour : Int)
            && doms.contains (dt.day : Int) && months.contains (dt.month : Int)
            && dows.contains (cronDow : Int))
    | _, _, _, _, _ => none
  | _ => none

/-- A YAML scalar appearing as an action parameter value. -/
inductive PyValue where
  | pyStr  (s : String)
  | pyList (ls : List String)
  | pyInt  (n : Int)
  | pyBool (b : Bool)
deriving DecidableEq, Repr

/-- The `action` dictionary of a manifest: optional `mcp` and `script` keys
and a `params` mapping; an absent `params` key is modelled as the empty
mapping, matching how the code reads it with `get` and a default. -/
structure ActionDict where
  mcp    : Option String := none
  script : Option String := none
  params : List (String × PyValue) := []
deriving DecidableEq, Repr

/-- The compiled schedule returned by `NLSchedule.parse`: the dictionary
tagged by its `kind` key becomes a tagged union. -/
inductive SchedRule where
  | interval (seconds : Nat)
  | cron (cron : String)
deriving DecidableEq, Repr

/-- The `EventDef` dataclass of src/event_engine.py.  Paths are abstract
strings. -/
structure EventDef where
  name            : String
  description     : String := ""
  event_type      : String
  schedule_raw    : Option String := none
  schedule        : Option SchedRule := none
  action          : ActionDict := {}
  event_dir       : String := "."
  active          : Bool := false
  resolved_params : List (String × PyValue) := []
deriving DecidableEq, Repr

/-- The mutable runtime state of `AEPEventEngine`: the registry plus the
per-event bookkeeping dictionaries and the loop flag. -/
structure EngineState where
  events              : List EventDef := []
  lastFired           : List (String × PyDatetime) := []
  cronFiredThisMinute : List (String × Bool) := []
  running             : Bool := false
deriving DecidableEq, Repr

/-- Two-digit zero padding, as in `strftime` `%M` and friends. -/
def pad2 (n : Nat) : String :=
  if n < 10 then "0" ++ toString n else toString n

/-- Four-digit zero padding, as in `strftime` `%Y` for common-era years. -/
def pad4 (n : Nat) : String :=
  if n < 10 then "000" ++ toString n
  else if n < 100 then "00" ++ toString n
  else if n < 1000 then "0" ++ toString n
  else toString n

/-- `now.strftime("%Y%m%d%H%M")`: the minute bucket of a timestamp. -/
def minuteKey (dt : PyDatetime) : String :=
  pad4 dt.year ++ pad2 dt.month ++ pad2 dt.day ++ pad2 dt.hour ++ pad2 dt.minute

/-- The cache key used by the cron branch of `_is_due`. -/
def cronCacheKey (name : String) (dt : PyDatetime) : String :=
  name ++ ":" ++ minuteKey dt

/-- `AEPEventEngine._is_due`.  The cron branch both reads and writes the
`_cron_fired_this_minute` dictionary, so the whole state is threaded
through; `none` models an exception escaping from `_cron_matches`
(malformed cron text).  The `.get(cache_key)` truthiness test succeeds
exactly on a stored `True`. -/
def isDue (st : EngineState) (ev : EventDef) (now : PyDatetime) :
    Option (Bool × EngineState) :=
  if ev.event_type ≠ "scheduled" then some (false, st)
  else
    match ev.schedule with
    | none => some (false, st)
    | some (.interval secs) =>
      match lookupA st.lastFired ev.name with
      | none => some (true, st)
      | some last =>
        some (decide ((secs : ℚ) ≤ now.epoch - last.epoch), st)
    | some (.cron c) =>
      let key := cronCacheKey ev.name now
      if lookupA st.cronFiredThisMinute key = some true then some (false, st)
      else
        match cronMatches c now with
        | none => none
        | some true =>
          some (true,
            { st with cronFiredThisMinute := setA st.cronFiredThisMinute key true })
        | some false => some (false, st)

/-- A sequence of due-ness evaluations of one event, threading the engine
state exactly as repeated `_is_due` calls do (the interval branch never
writes state, the cron branch records its minute marker). -/
def evalDueSeq (st : EngineState) (ev : EventDef) :
    List PyDatetime → Option (List Bool × EngineState)
  | [] => some ([], st)
  | t :: ts =>
    match isDue st ev t with
    | none => none
    | some (b, st1) =>
      match evalDueSeq st1 ev ts with
      | none => none
      | some (bs, st2) => some (b :: bs, st2)

/-! ## NLSchedule: the natural-language schedule compiler

Every regex of `NLSchedule.parse` is matched with IGNORECASE and every
captured word is lowercased before use, so the model works on the
lowercased character list once and for all; digits and the produced
numbers are unaffected by case. -/

/-- Python regex `\w` restricted to ASCII: letters, digits, underscore. -/
def isWordChar (c : Char) : Bool :=
  c.isAlphanum || c = '_'

/-- Word-boundary substitution, modelling `re.sub` of a single literal word:
scan left to right, and where the pattern occurs with a non-word character
(or an edge) on both sides replace it and continue after the match, the
boundary context always taken from the original text.  Fuel is the scan
length; each step consumes at least one character, so fuel equal to the
length of the list makes the function total and faithful. -/
def substWordFuel (pat repl : List Char) : Nat → Option Char → List Char → List Char
  | 0, _, cs => cs
  | fuel + 1, prev, cs =>
    match cs with
    | [] => []
    | c :: rest =>
      let boundaryBefore : Bool := match prev with
        | none => true
        | some p => !(isWordChar p)
      let afterOk : Bool := match (c :: rest).drop pat.length with
        | [] => true
        | c2 :: _ => !(isWordChar c2)
      if boundaryBefore && pat.isPrefixOf (c :: rest) && afterOk then
        repl ++ substWordFuel pat repl fuel pat.getLast? ((c :: rest).drop pat.length)
      else
        c :: substWordFuel pat repl fuel (some c) rest

/-- `re.sub` of one word-bounded literal pattern. -/
def substWord (pat repl cs : List Char) : List Char :=
  substWordFuel pat repl (cs.length + 1) none cs

/-- Stripped, lowercased character list of a string. -/
def lcs (s : String) : List Char :=
  (stripC s.toList).map Char.toLower

/-- The preprocessing done by `NLSchedule.parse` before any branch is tried:
strip, then rewrite the word `midnight` to `12 AM` and the word `noon` to
`12 PM` (lowercased here, as all subsequent matching ignores case). -/
def preprocess (text : String) : List Char :=
  substWord "noon".toList "12 pm".toList
    (substWord "midnight".toList "12 am".toList (lcs text))

/-- Match a literal (already lowercased) at the head of the input. -/
def litP (lit : List Char) (cs : List Char) : Option (List Char) :=
  if lit.isPrefixOf cs then some (cs.drop lit.length) else none

/-- Regex `\s+`: at least one whitespace character, consumed greedily. -/
def ws1 (cs : List Char) : Option (List Char) :=
  match cs with
  | c :: t => if isPySpace c then some (t.dropWhile isPySpace) else none
  | [] => none

/-- Regex `\d+`: a nonempty digit run, consumed greedily, with its value as
read by Python `int`. -/
def digits1 (cs : List Char) : Option (Nat × List Char) :=
  let ds := cs.takeWhile Char.isDigit
  if ds = [] then none
  else some (ds.foldl (fun acc c => 10 * acc + (c.toNat - 48)) 0, cs.dropWhile Char.isDigit)

/-- The regex `$` anchor: end of text, or just before one final newline. -/
def atEnd (cs : List Char) : Bool :=
  cs = [] || cs = ['\n']

/-- The `_DOW` table: day name to cron day-of-week, Sunday = 0.  No day name
is a prefix of another, so at most one entry matches at a position and the
alternation order of the regex is irrelevant. -/
def dowTable : List (List Char × Nat) :=
  [("sunday".toList, 0), ("monday".toList, 1), ("tuesday".toList, 2),
   ("wednesday".toList, 3), ("thursday".toList, 4), ("friday".toList, 5),
   ("saturday".toList, 6)]

/-- Match one day-of-week name. -/
def matchDow (cs : List Char) : Option (Nat × List Char) :=
  (dowTable.find? (fun p => p.1.isPrefixOf cs)).map
    (fun p => (p.2, cs.drop p.1.length))

/-- The captured `am`/`pm` suffix. -/
inductive AmPm where
  | am
  | pm
deriving DecidableEq, Repr

/-- `NLSchedule._to24`: convert a 12-hour reading to 24-hour. -/
def to24 (h m : Nat) (ap : Option AmPm) : Nat × Nat :=
  match ap with
  | some .pm => (if h ≠ 12 then h + 12 else h, m)
  | some .am => (if h = 12 then 0 else h, m)
  | none => (h, m)

/-- Value of a decimal digit character. -/
def digitVal (c : Char) : Nat :=
  c.toNat - 48

/-- Regex tail `\s*(am|pm)?$` shared by all time-of-day branches. -/
def timeTail (cs : List Char) : Option (Option AmPm) :=
  let r := cs.dropWhile isPySpace
  if ("am".toList).isPrefixOf r then
    if atEnd (r.drop 2) then some (some .am) else none
  else if ("pm".toList).isPrefixOf r then
    if atEnd (r.drop 2) then some (some .pm) else none
  else if atEnd r then some none
  else none

/-- After the hour digits: the optional `:MM` group (tried greedily first,
falling back to omitting it, as regex backtracking does) and the tail. -/
def afterHour (h : Nat) (cs : List Char) : Option (Nat × Nat × Option AmPm) :=
  (match cs with
   | ':' :: d1 :: d2 :: r =>
     if d1.isDigit && d2.isDigit then
       (timeTail r).map (fun ap => (h, 10 * digitVal d1 + digitVal d2, ap))
     else none
   | _ => none)
  <|> (timeTail cs).map (fun ap => (h, 0, ap))

/-- Regex `(\d{1,2})(?::(\d{2}))?\s*(am|pm)?$`: two hour digits are tried
greedily before one, as regex backtracking does. -/
def parseTimeEnd (cs : List Char) : Option (Nat × Nat × Option AmPm) :=
  match cs with
  | [] => none
  | c1 :: rest =>
    if c1.isDigit then
      (match rest with
       | c2 :: r2 =>
         if c2.isDigit then afterHour (10 * digitVal c1 + digitVal c2) r2 else none
       | [] => none)
      <|> afterHour (digitVal c1) rest
    else none

/-- Branch 1, `every\s+(\d+)\s+(seconds?|minutes?|hours?)` (no end anchor:
arbitrary text may follow).  Returns the numeral and the unit length in
seconds; the singular and plural captures coincide after the rstrip of
`s` the source applies, so only the unit root is examined. -/
def matchEveryNUnit (cs : List Char) : Option (Nat × Nat) :=
  match litP "every".toList cs with
  | none => none
  | some r1 =>
    match ws1 r1 with
    | none => none
    | some r2 =>
      match digits1 r2 with
      | none => none
      | some (n, r3) =>
        match ws1 r3 with
        | none => none
        | some r4 =>
          if ("second".toList).isPrefixOf r4 then some (n, 1)
          else if ("minute".toList).isPrefixOf r4 then some (n, 60)
          else if ("hour".toList).isPrefixOf r4 then some (n, 3600)
          else none

/-- Branch 2, `every\s+hour$`. -/
def matchEveryHour (cs : List Char) : Bool :=
  match litP "every".toList cs with
  | none => false
  | some r1 =>
    match ws1 r1 with
    | none => false
    | some r2 =>
      match litP "hour".toList r2 with
      | none => false
      | some r3 => atEnd r3

/-- Branch 3, `every <dow> at <time>$`: one day name, then the time.
Returns day-of-week, 24-hour hour, minute. -/
def matchDowAt (cs : List Char) : Option (Nat × Nat × Nat) := do
  let r1 ← litP "every".toList cs
  let r2 ← ws1 r1
  let (d, r3) ← matchDow r2
  let r4 ← ws1 r3
  let r5 ← litP "at".toList r4
  let r6 ← ws1 r5
  let (h, m, ap) ← parseTimeEnd r6
  let hm := to24 h m ap
  pure (d, hm.1, hm.2)

/-- Branch 4, `every day at <time>$`. -/
def matchDayAt (cs : List Char) : Option (Nat × Nat) := do
  let r1 ← litP "every".toList cs
  let r2 ← ws1 r1
  let r3 ← litP "day".toList r2
  let r4 ← ws1 r3
  let r5 ← litP "at".toList r4
  let r6 ← ws1 r5
  let (h, m, ap) ← parseTimeEnd r6
  pure (to24 h m ap)

/-- One repetition of the day-list element `\s*,?\s*(?:and\s+)?<dow>` of
branch 5; the optional `and` group is tried greedily first, as regex
backtracking does. -/
def dowListStep (cs : List Char) : Option (Nat × List Char) :=
  let r1 := cs.dropWhile isPySpace
  let r2 := match r1 with
    | ',' :: t => t.dropWhile isPySpace
    | _ => r1
  (do
    let ra ← litP "and".toList r2
    let rb ← ws1 ra
    matchDow rb)
  <|> matchDow r2

/-- The starred day-list element, greedy.  Each successful step consumes at
least a day name, so fuel equal to the input length is sufficient. -/
def dowListMany : Nat → List Char → (List Nat × List Char)
  | 0, cs => ([], cs)
  | fuel + 1, cs =>
    match dowListStep cs with
    | none => ([], cs)
    | some (d, r) =>
      let dr := dowListMany fuel r
      (d :: dr.1, dr.2)

/-- Branch 5, `every <dow1>[, <dow2> ...][ and <dowN>] at <time>$`.  The
collected day numbers equal, in order, what the source recovers with
`findall` over the captured day-list text. -/
def matchDowListAt (cs : List Char) : Option (List Nat × Nat × Nat) := do
  let r1 ← litP "every".toList cs
  let r2 ← ws1 r1
  let (d, r3) ← matchDow r2
  let dsr := dowListMany r3.length r3
  let r5 ← ws1 dsr.2
  let r6 ← litP "at".toList r5
  let r7 ← ws1 r6
  let (h, m, ap) ← parseTimeEnd r7
  let hm := to24 h m ap
  pure (d :: dsr.1, hm.1, hm.2)

/-- The optional `on\s+the\s+` opening of branch 6. -/
def afterOnThe (cs : List Char) : Option (List Char) := do
  let a ← litP "on".toList cs
  let b ← ws1 a
  let c ← litP "the".toList b
  ws1 c

/-- Branch 6 after the optional opening:
`first\s+day\s+of\s+(?:every\s+)?month\s+at\s+<time>$`. -/
def firstDayCore (cs : List Char) : Option (Nat × Nat) := do
  let r1 ← litP "first".toList cs
  let r2 ← ws1 r1
  let r3 ← litP "day".toList r2
  let r4 ← ws1 r3
  let r5 ← litP "of".toList r4
  let r6 ← ws1 r5
  let r7 := (do
    let a ← litP "every".toList r6
    ws1 a).getD r6
  let r8 ← litP "month".toList r7
  let r9 ← ws1 r8
  let r10 ← litP "at".toList r9
  let r11 ← ws1 r10
  let (h, m, ap) ← parseTimeEnd r11
  pure (to24 h m ap)

/-- Branch 6, `(?:on\s+the\s+)?first day of [every] month at <time>$`. -/
def matchFirstDay (cs : List Char) : Option (Nat × Nat) :=
  (afterOnThe cs).bind firstDayCore <|> firstDayCore cs

namespace NLSchedule

/-- `NLSchedule.parse`: the branch cascade, first match wins, unmatched text
raises (modelled as `Except.error`). -/
def parse (text : String) : Except String SchedRule :=
  let t := preprocess text
  match matchEveryNUnit t with
  | some nu => .ok (.interval (nu.1 * nu.2))
  | none =>
    if matchEveryHour t then .ok (.interval 3600)
    else
      match matchDowAt t with
      | some dhm =>
        .ok (.cron (toString dhm.2.2 ++ " " ++ toString dhm.2.1 ++ " * * " ++ toString dhm.1))
      | none =>
        match matchDayAt t with
        | some hm =>
          .ok (.cron (toString hm.2 ++ " " ++ toString hm.1 ++ " * * *"))
        | none =>
          match matchDowListAt t with
          | some dshm =>
            .ok (.cron (toString dshm.2.2 ++ " " ++ toString dshm.2.1 ++ " * * "
              ++ String.intercalate "," (dshm.1.map toString)))
          | none =>
            match matchFirstDay t with
            | some hm =>
              .ok (.cron (toString hm.2 ++ " " ++ toString hm.1 ++ " 1 * *"))
            | none => .error ("Cannot parse schedule: " ++ text)

end NLSchedule

/-! ## Event definition loader (parse_event_md) and file-reference resolution -/

/-- The filesystem as the loader sees it.  `resolvePath dir v` models
`(dir / v).resolve()` (OS path resolution is abstract), `resolveDir dir`
models `dir.resolve()` rendered as a string, and `read p` returns the
contents of `p` when it exists (`p.exists()` is `(read p).isSome`). -/
structure PyFs where
  resolvePath : String → String → String
  resolveDir  : String → String
  read        : String → Option String

/-- The post-processing `_resolve_value` applies to a `.txt` file: the
stripped, non-empty, non-comment (leading `#`) lines, in file order. -/
def cleanLines (raw : String) : List String :=
  (((splitOnC '\n' raw.toList).map stripC).filter
    (fun l =>
      match l with
      | [] => false
      | c :: _ => c != '#')).map (fun l => String.mk l)

/-- `_resolve_value`: a string parameter naming an existing file that
resolves inside the event folder is replaced by that file's contents
(`.txt` files become a cleaned line list, anything else the stripped
text); everything else passes through unchanged. -/
def resolveValue (fs : PyFs) (event_dir : String) (v : PyValue) : PyValue :=
  match v with
  | .pyStr s =>
    let candidate := fs.resolvePath event_dir s
    match fs.read candidate with
    | some raw =>
      if ((fs.resolveDir event_dir).toList).isPrefixOf candidate.toList then
        if (".txt".toList).isSuffixOf s.toList then .pyList (cleanLines raw)
        else .pyStr (String.mk (stripC raw.toList))
      else v
    | none => v
  | _ => v

/-- The YAML frontmatter of an EVENT.md, already parsed by the YAML library
(which is external to this repository); each key the code reads becomes
an optional field.  Schedule values are modelled as strings since the
code applies `str` before compiling them. -/
structure ManifestData where
  type        : Option String := none
  description : Option String := none
  schedule    : Option String := none
  action      : Option ActionDict := none
  script      : Option String := none
  active      : Option Bool := none
deriving DecidableEq, Repr

/-- Python truthiness of the optional schedule value: present and not the
empty string. -/
def schedTruthy : Option String → Bool
  | none => false
  | some s => s ≠ ""

/-- `parse_event_md` from the frontmatter stage on: require `type`, require
one of `action`/`script`, wrap a bare `script` into an action dictionary,
compile the schedule only when it is truthy and the type is `scheduled`
(a compile failure propagates), and resolve the file references of the
action parameters.  `dirName` is `event_dir.name`, `event_dir` the
folder path. -/
def parseEventData (fs : PyFs) (dirName event_dir : String) (data : ManifestData) :
    Except String EventDef :=
  match data.type with
  | none => .error ("[" ++ dirName ++ "] EVENT.md missing required field: type")
  | some ty =>
    if data.action.isNone && data.script.isNone then
      .error ("[" ++ dirName ++ "] EVENT.md must have action or script")
    else
      let action : ActionDict :=
        match data.action with
        | some a => a
        | none => { script := data.script }
      let sched : Except String (Option SchedRule) :=
        if schedTruthy data.schedule && ty = "scheduled" then
          (NLSchedule.parse (data.schedule.getD "")).map some
        else .ok none
      match sched with
      | .error e => .error e
      | .ok schedule =>
        .ok { name := dirName
              description := data.description.getD ""
              event_type := ty
              schedule_raw := data.schedule
              schedule := schedule
              action := action
              event_dir := event_dir
              active := data.active.getD false
              resolved_params :=
                action.params.map (fun p => (p.1, resolveValue fs event_dir p.2)) }

/-- One candidate folder of the events directory, in scan order.  `manifest`
is `none` when the folder has no EVENT.md (such folders are skipped by
`load` before parsing); the YAML text stage is abstracted as the parsed
`ManifestData`. -/
structure JobFolder where
  name     : String
  dir      : String
  manifest : Option ManifestData := none

/-- `AEPEventEngine.load`: parse every candidate folder, appending each
success to the registry; a parse failure is caught, reported and the
folder skipped. -/
def loadEvents (fs : PyFs) (folders : List JobFolder) : List EventDef :=
  folders.foldl
    (fun acc f =>
      match f.manifest with
      | none => acc
      | some data =>
        match parseEventData fs f.name f.dir data with
        | .ok ev => acc ++ [ev]
        | .error _ => acc)
    []

/-! ## Dispatch, the polling loop, and the administrative delete -/

/-- A dynamically loaded script module: whether it defines `handle`, and the
outcome of calling `handle` on a parameter mapping (`Except.error` models
an exception raised by the call; an asynchronous result is awaited
transparently). -/
structure ScriptModule where
  hasHandle : Bool := true
  run       : List (String × PyValue) → Except String PyValue := fun _ => .ok (.pyStr "")

/-- The external world `_dispatch` interacts with: the filesystem, the MCP
client (`call_tool` raises for an unknown tool or a failing handler,
modelled as `Except.error`) and dynamic script loading
(`spec_from_file_location` + `exec_module`; `Except.error` models an
exception raised while executing the module body). -/
structure DispatchWorld where
  fs         : PyFs
  toolCall   : String → List (String × PyValue) → Except String PyValue
  scriptLoad : String → Except String ScriptModule

/-- What one dispatch did, mirroring the print statements of `_dispatch`. -/
inductive DispatchResult where
  | toolOk (r : PyValue)
  | toolError (e : String)
  | scriptNotFound
  | scriptResult (r : PyValue)
  | noHandle
  | noAction
deriving DecidableEq, Repr

/-- `AEPEventEngine._dispatch`.  The `mcp` branch wraps the tool call in
try/except, so a raised tool error is caught and reported.  The `script`
branch returns early when the script file is missing and only reports a
missing `handle`, but the `exec_module` call and the `handle(...)` call
are not inside any try/except: an exception raised there escapes
`_dispatch` (modelled as `Except.error`). -/
def pyDispatch (w : DispatchWorld) (ev : EventDef) : Except String DispatchResult :=
  match ev.action.mcp with
  | some toolName =>
    let params := setA ev.resolved_params "_event_name" (.pyStr ev.name)
    match w.toolCall toolName params with
    | .ok r => .ok (.toolOk r)
    | .error e => .ok (.toolError e)
  | none =>
    match ev.action.script with
    | some s =>
      let scriptPath := w.fs.resolvePath ev.event_dir s
      if (w.fs.read scriptPath).isNone then .ok .scriptNotFound
      else
        match w.scriptLoad scriptPath with
        | .error e => .error e
        | .ok m =>
          if m.hasHandle then
            match m.run ev.resolved_params with
            | .ok r => .ok (.scriptResult r)
            | .error e => .error e
          else .ok .noHandle
    | none => .ok .noAction

/-- The body of `AEPEventEngine._tick` over the remaining registry suffix:
for each active due event record `last_fired` first, then dispatch.  A
raised dispatch exception (or a cron-evaluation exception inside
`_is_due`) aborts the iteration; the second component carries it.  The
registry itself is never modified. -/
def tickAux (w : DispatchWorld) (now : PyDatetime) :
    EngineState → List EventDef → EngineState × Option String
  | st, [] => (st, none)
  | st, ev :: rest =>
    if ev.active then
      match isDue st ev now with
      | none => (st, some "cron evaluation raised")
      | some (true, st1) =>
        let st2 := { st1 with lastFired := setA st1.lastFired ev.name now }
        match pyDispatch w ev with
        | .ok _ => tickAux w now st2 rest
        | .error e => (st2, some e)
      | some (false, st1) => tickAux w now st1 rest
    else tickAux w now st rest

/-- `AEPEventEngine._tick`. -/
def tick (w : DispatchWorld) (st : EngineState) (now : PyDatetime) :
    EngineState × Option String :=
  tickAux w now st st.events

/-- The loop body of `AEPEventEngine.run` over an explicit list of tick
times (the sleep and the optional duration cap choose the list; they are
outside the model).  The loop re-checks `_running` each iteration, and an
exception escaping a tick terminates it. -/
def runSteps (w : DispatchWorld) (st : EngineState) :
    List PyDatetime → EngineState × Option String
  | [] => (st, none)
  | t :: ts =>
    if st.running then
      match tick w st t with
      | (st1, none) => runSteps w st1 ts
      | (st1, some e) => (st1, some e)
    else (st, none)

/-- `AEPEventEngine.run`: set `_running`, then loop. -/
def runEngine (w : DispatchWorld) (st : EngineState) (times : List PyDatetime) :
    EngineState × Option String :=
  runSteps w { st with running := true } times

/-- The engine mutation of `delete_event` in src/app.py: drop the event from
the registry and delete its `_last_fired` entry when present.  (The
on-disk folder removal and the audit log are outside the engine state;
nothing in `delete_event` touches `_cron_fired_this_minute`.) -/
def deleteEventFromEngine (st : EngineState) (event_name : String) : EngineState :=
  { st with
    events := st.events.filter (fun ev => ev.name ≠ event_name)
    lastFired := delA st.lastFired event_name }

/-! ## Concrete fixtures used by witnesses and counterexamples -/

/-- A timestamp at rational epoch `q`, in the minute 2025-01-01 00:00. -/
def dtAt (q : ℚ) : PyDatetime :=
  ⟨q, 2025, 1, 1, 0, 0, 2⟩

/-- An interval event firing every 5 seconds. -/
def evI : EventDef :=
  { name := "iv", event_type := "scheduled", schedule := some (.interval 5) }

/-- Engine state in which `evI` last fired at epoch 0. -/
def stI : EngineState :=
  { lastFired := [("iv", dtAt 0)] }

/-- A cron event firing every minute of hour 9. -/
def evCr : EventDef :=
  { name := "cr", event_type := "scheduled", schedule := some (.cron "* 9 * * *"),
    active := true }

/-- Two evaluation times inside the minute 2025-01-01 09:00. -/
def dtC1 : PyDatetime := ⟨0, 2025, 1, 1, 9, 0, 2⟩

def dtC2 : PyDatetime := ⟨30, 2025, 1, 1, 9, 0, 2⟩

/-- An evaluation time in the next matching minute, 09:01. -/
def dtC3 : PyDatetime := ⟨60, 2025, 1, 1, 9, 1, 2⟩

/-- The state after `evCr` fired in the 09:00 bucket. -/
def stCr1 : EngineState := { cronFiredThisMinute := [("cr:202501010900", true)] }

/-- A filesystem with no files at all (paths resolve to themselves). -/
def fs0 : PyFs := ⟨fun _ v => v, fun d => d, fun _ => none⟩

/-- A valid folder: manual event with a script action. -/
def folderG1 : JobFolder :=
  { name := "g1", dir := "d1", manifest := some { type := some "manual", script := some "a.py" } }

/-- An invalid folder: its manifest has neither an action nor a script. -/
def folderBad : JobFolder :=
  { name := "bad", dir := "d2", manifest := some { type := some "manual" } }

/-- A valid folder: scheduled event with an MCP action. -/
def dataG2 : ManifestData :=
  { type := some "scheduled", schedule := some "every 5 seconds",
    action := some { mcp := some "noop" } }

def folderG2 : JobFolder :=
  { name := "g2", dir := "d3", manifest := some dataG2 }

/-- A scheduled manifest that provides no schedule key at all. -/
def dataC10 : ManifestData := { type := some "scheduled", script := some "run.py" }

/-- The event the loader produces for `dataC10`: it loads, with no compiled
schedule. -/
def evC10 : EventDef :=
  { name := "sch", description := "", event_type := "scheduled", schedule_raw := none,
    schedule := none, action := { script := some "run.py" }, event_dir := "d",
    active := false, resolved_params := [] }

/-- A filesystem holding a recipients list and a body template inside the
folder `job`. -/
def fsW : PyFs :=
  { resolvePath := fun d v => d ++ "/" ++ v, resolveDir := fun d => d,
    read := fun p =>
      if p = "job/recips.txt" then some "alice@x\n# comment\n\nbob@y\n"
      else if p = "job/body.md" then some "  hello \n" else none }

/-- A filesystem in which the script file of `evS` exists. -/
def fsScript : PyFs :=
  { resolvePath := fun d v => d ++ "/" ++ v, resolveDir := fun d => d,
    read := fun p => if p = "./x.py" then some "raise RuntimeError" else none }

/-- A world whose script module raises while being executed. -/
def worldCrash : DispatchWorld :=
  { fs := fsScript, toolCall := fun _ _ => .ok (.pyStr "sent"),
    scriptLoad := fun _ => .error "exception raised while executing script module" }

/-- An active interval event with a script action. -/
def evS : EventDef :=
  { name := "s", event_type := "scheduled", schedule := some (.interval 1),
    action := { script := some "x.py" }, active := true }

/-- A world in which every dispatch outcome is one the code reports without
raising: the tool call raises (caught), scripts are missing (with `fs0`)
or load without a `handle` entry point. -/
def worldBenign : DispatchWorld :=
  { fs := fs0, toolCall := fun _ _ => .error "MCP tool not found",
    scriptLoad := fun _ => .ok { hasHandle := false, run := fun _ => .ok (.pyStr "") } }

/-- An active interval event calling an unregistered MCP tool. -/
def evM : EventDef :=
  { name := "m", event_type := "scheduled", schedule := some (.interval 1),
    action := { mcp := some "missing_tool" }, active := true }

/-- A registry holding the tool-call event and the script event. -/
def stC1 : EngineState := { events := [evM, evS] }

/-- An active cron event firing at 09:00 daily. -/
def evC2 : EventDef :=
  { name := "e2", event_type := "scheduled", schedule := some (.cron "0 9 * * *"),
    active := true }

/-- A state in which `evC2` has fired in the minute bucket of `dtC1`. -/
def stC2 : EngineState :=
  { events := [evC2], lastFired := [("e2", dtC1)],
    cronFiredThisMinute := [("e2:202501010900", true)] }

/-- The state after deleting `evC2` and re-creating it under the same name. -/
def stC2re : EngineState := { deleteEventFromEngine stC2 "e2" with events := [evC2] }

/-- An interval event re-created under the deleted name. -/
def evI2 : EventDef :=
  { name := "e2", event_type := "scheduled", schedule := some (.interval 60) }

end EventEngine

namespace EventEngine

/-! ## Helper lemmas -/

theorem lookupA_setA_self {α : Type} (l : List (String × α)) (k : String) (v : α) :
    lookupA (setA l k v) k = some v := by
  induction l with
  | nil => simp [setA, lookupA]
  | cons p t ih =>
    by_cases h : p.1 = k
    · simp [setA, h, lookupA]
    · simp [setA, h, lookupA, ih]

theorem lookupA_setA_ne {α : Type} (l : List (String × α)) (k k2 : String) (v : α)
    (h : k2 ≠ k) : lookupA (setA l k v) k2 = lookupA l k2 := by
  induction l with
  | nil =>
    simp only [setA, lookupA]
    rw [if_neg (fun e => h e.symm)]
  | cons p t ih =>
    by_cases hp : p.1 = k
    · rw [show setA (p :: t) k v = (k, v) :: t by simp [setA, hp]]
      simp only [lookupA]
      rw [if_neg (show ¬ k = k2 from fun e => h e.symm),
        if_neg (show ¬ p.1 = k2 from by rw [hp]; exact fun e => h e.symm)]
    · rw [show setA (p :: t) k v = p :: setA t k v by simp [setA, hp]]
      simp only [lookupA, ih]

theorem lookupA_delA_self {α : Type} (l : List (String × α)) (k : String) :
    lookupA (delA l k) k = none := by
  induction l with
  | nil => rfl
  | cons p t ih =>
    by_cases h : p.1 = k
    · rw [show delA (p :: t) k = delA t k by simp [delA, List.filter_cons, h]]
      exact ih
    · rw [show delA (p :: t) k = p :: delA t k by simp [delA, List.filter_cons, h]]
      simp [lookupA, h, ih]

theorem lookupA_delA_ne {α : Type} (l : List (String × α)) (k k2 : String)
    (h : k2 ≠ k) : lookupA (delA l k) k2 = lookupA l k2 := by
  induction l with
  | nil => rfl
  | cons p t ih =>
    by_cases hp : p.1 = k
    · rw [show delA (p :: t) k = delA t k by simp [delA, List.filter_cons, hp]]
      rw [ih]
      simp [lookupA, show ¬ p.1 = k2 from by rw [hp]; exact fun e => h e.symm]
    · rw [show delA (p :: t) k = p :: delA t k by simp [delA, List.filter_cons, hp]]
      simp [lookupA, ih]

theorem mem_pyRangePos (start stop : Int) (step : Nat) (hstep : 0 < step) (x : Int) :
    x ∈ pyRangePos start stop step ↔
      ∃ i : Nat, x = start + (step : Int) * i ∧ x < stop := by
  unfold pyRangePos
  by_cases h : start < stop
  · simp only [if_pos h, List.mem_map, List.mem_range]
    constructor
    · rintro ⟨i, hi, rfl⟩
      refine ⟨i, rfl, ?_⟩
      have h2 : i * step ≤ (stop - start - 1).toNat :=
        (Nat.le_div_iff_mul_le hstep).mp (Nat.lt_succ_iff.mp hi)
      have h3 : ((i * step : Nat) : Int) ≤ ((stop - start - 1).toNat : Int) := by
        exact_mod_cast h2
      rw [Int.toNat_of_nonneg (by omega)] at h3
      push_cast at h3
      have h4 : start + (step : Int) * i ≤ stop - 1 := by
        rw [mul_comm]; linarith
      linarith
    · rintro ⟨i, rfl, hlt⟩
      refine ⟨i, ?_, rfl⟩
      rw [Nat.lt_succ_iff, Nat.le_div_iff_mul_le hstep,
        Int.le_toNat (by omega)]
      push_cast
      rw [mul_comm]
      linarith
  · simp only [if_neg h, List.range_zero, List.map_nil, List.not_mem_nil, false_iff,
      not_exists, not_and]
    rintro i rfl
    have h5 : (0 : Int) ≤ (step : Int) * i := by positivity
    intro hlt
    omega

theorem mem_pyRangePos_one (start stop x : Int) :
    x ∈ pyRangePos start stop 1 ↔ start ≤ x ∧ x < stop := by
  rw [mem_pyRangePos start stop 1 Nat.one_pos]
  constructor
  · rintro ⟨i, rfl, hlt⟩
    constructor
    · have : (0 : Int) ≤ (1 : Nat) * (i : Int) := by positivity
      push_cast at this ⊢
      linarith
    · exact hlt
  · rintro ⟨hle, hlt⟩
    refine ⟨(x - start).toNat, ?_, hlt⟩
    rw [Int.toNat_of_nonneg (by omega)]
    push_cast
    ring

/-- A successful `_parse_cron_field` fold is the union of the per-part
expansions, starting from the accumulator. -/
theorem parseCronField_fold_mem (lo hi : Int) (parts : List (List Char))
    (acc res : List Int)
    (h : parts.foldlM
      (fun acc part => (parseCronPart part lo hi).map (fun r => acc ++ r)) acc
      = some res) (x : Int) :
    x ∈ res ↔ x ∈ acc ∨ ∃ part ∈ parts, ∃ l, parseCronPart part lo hi = some l ∧ x ∈ l := by
  induction parts generalizing acc with
  | nil =>
    simp only [List.foldlM_nil] at h
    obtain rfl : acc = res := by simpa using h
    simp
  | cons p ps ih =>
    simp only [List.foldlM_cons] at h
    cases hp : parseCronPart p lo hi with
    | none => rw [hp] at h; simp at h
    | some l =>
      rw [hp] at h
      simp only [Option.map_some', Option.some_bind] at h
      rw [ih (acc ++ l) h]
      simp only [List.mem_append, List.mem_cons]
      constructor
      · rintro (( hx | hx) | ⟨part, hpart, l2, hl2, hx⟩)
        · exact Or.inl hx
        · exact Or.inr ⟨p, Or.inl rfl, l, hp, hx⟩
        · exact Or.inr ⟨part, Or.inr hpart, l2, hl2, hx⟩
      · rintro (hx | ⟨part, hpart | hpart, l2, hl2, hx⟩)
        · exact Or.inl (Or.inl hx)
        · subst hpart
          rw [hp] at hl2
          obtain rfl : l = l2 := by simpa using hl2
          exact Or.inl (Or.inr hx)
        · exact Or.inr ⟨part, hpart, l2, hl2, hx⟩

end EventEngine

namespace EventEngine

/-! ## C3: interval due-ness -/

/-- C3: for a scheduled event with an `Interval` rule, `_is_due` reports the
event due on its first evaluation (no recorded firing), and after a
recorded firing at `last` it reports not-due exactly while the elapsed
time is below the configured seconds and due once the elapsed time
reaches them (boundary inclusive).  The state is returned unchanged. -/
theorem interval_due_first_and_boundary (st : EngineState) (ev : EventDef)
    (now : PyDatetime) (secs : Nat)
    (htype : ev.event_type = "scheduled")
    (hsched : ev.schedule = some (.interval secs)) :
    (lookupA st.lastFired ev.name = none → isDue st ev now = some (true, st)) ∧
    (∀ last, lookupA st.lastFired ev.name = some last →
      (now.epoch - last.epoch < (secs : ℚ) → isDue st ev now = some (false, st)) ∧
      ((secs : ℚ) ≤ now.epoch - last.epoch → isDue st ev now = some (true, st))) := by
  constructor
  · intro h
    simp [isDue, htype, hsched, h]
  · intro last h
    constructor
    · intro hlt
      simp [isDue, htype, hsched, h, not_le.mpr hlt]
    · intro hge
      simp [isDue, htype, hsched, h, hge]

/-- Witness for C3 at concrete inputs: with a last firing at epoch 0 and a
5-second interval, epoch 4 is not due, epoch 5 (the boundary) is due, and
with no firing history epoch 0 is due at once. -/
theorem interval_due_first_and_boundary_witness :
    isDue stI evI (dtAt 4) = some (false, stI) ∧
    isDue stI evI (dtAt 5) = some (true, stI) ∧
    isDue { } evI (dtAt 0) = some (true, { }) := by
  refine ⟨?_, ?_, ?_⟩
  · exact ((interval_due_first_and_boundary stI evI (dtAt 4) 5 rfl rfl).2
      (dtAt 0) rfl).1 (by norm_num [dtAt])
  · exact ((interval_due_first_and_boundary stI evI (dtAt 5) 5 rfl rfl).2
      (dtAt 0) rfl).2 (by norm_num [dtAt])
  · exact (interval_due_first_and_boundary { } evI (dtAt 0) 5 rfl rfl).1 rfl

/-! ## C5: cron field expansion and timestamp matching -/

theorem parseCronField_star (lo hi : Int) :
    parseCronField ['*'] lo hi = some (pyRangePos lo (hi + 1) 1) := by
  simp [parseCronField, splitOnC, splitPredC, parseCronPart, pyRange]

theorem cronMatches_spec (cron : String) (dt : PyDatetime)
    (f0 f1 f2 f3 f4 : List Char) (rest : List (List Char))
    (mins hrs doms months dows : List Int)
    (hsplit : pySplitWsC (stripC cron.toList) = f0 :: f1 :: f2 :: f3 :: f4 :: rest)
    (h0 : parseCronField f0 0 59 = some mins)
    (h1 : parseCronField f1 0 23 = some hrs)
    (h2 : parseCronField f2 1 31 = some doms)
    (h3 : parseCronField f3 1 12 = some months)
    (h4 : parseCronField f4 0 6 = some dows) :
    cronMatches cron dt = some true ↔
      ((dt.minute : Int) ∈ mins ∧ (dt.hour : Int) ∈ hrs ∧ (dt.day : Int) ∈ doms ∧
       (dt.month : Int) ∈ months ∧ (((dt.weekday + 1) % 7 : Nat) : Int) ∈ dows) := by
  unfold cronMatches
  rw [hsplit]
  dsimp only
  rw [h0, h1, h2, h3, h4]
  dsimp only
  simp [List.elem_iff, and_assoc]

/-- C5: each cron field expands to a set of integers — `*` to the full legal
range (boundary inclusive on both sides), a range `a-b` to the inclusive
range, a step `base/step` (positive step) to the arithmetic progression
from the field minimum (`*` base) or the literal base up to the field
maximum, a literal to itself, and a comma list to the union of its
parts — and a timestamp matches exactly when minute, hour, day-of-month,
month and the Sunday-zero day-of-week all lie in their expanded sets; in
particular `0 9 * * 1` matches Monday 09:00 and matches neither
Monday 09:01 nor Tuesday 09:00. -/
theorem cron_field_expansion_and_match :
    (∀ lo hi x : Int, ∀ l, parseCronField ['*'] lo hi = some l →
      (x ∈ l ↔ lo ≤ x ∧ x ≤ hi)) ∧
    (∀ (part : List Char) (lo hi : Int) (ac : List Char) (rest : List (List Char))
      (a b x : Int) (l : List Int),
      part.contains '/' = false → part.contains '-' = true →
      splitOnC '-' part = ac :: rest →
      pyIntC ac = some a → pyIntC (joinC '-' rest) = some b →
      parseCronPart part lo hi = some l → (x ∈ l ↔ a ≤ x ∧ x ≤ b)) ∧
    (∀ (part : List Char) (lo hi : Int) (bse : List Char) (rest : List (List Char))
      (start stp x : Int) (l : List Int),
      part.contains '/' = true → splitOnC '/' part = bse :: rest →
      (if bse = "*".toList then some lo else pyIntC bse) = some start →
      pyIntC (joinC '/' rest) = some stp → 0 < stp →
      parseCronPart part lo hi = some l →
      (x ∈ l ↔ ∃ i : Nat, x = start + stp * i ∧ x ≤ hi)) ∧
    (∀ (part : List Char) (lo hi n : Int),
      part.contains '/' = false → part.contains '-' = false →
      part ≠ ['*'] → pyIntC part = some n → parseCronPart part lo hi = some [n]) ∧
    (∀ (s : List Char) (lo hi x : Int) (l : List Int),
      parseCronField s lo hi = some l →
      (x ∈ l ↔ ∃ part ∈ splitOnC ',' s, ∃ lp,
        parseCronPart part lo hi = some lp ∧ x ∈ lp)) ∧
    (∀ (cron : String) (dt : PyDatetime) (f0 f1 f2 f3 f4 : List Char)
      (rest : List (List Char)) (mins hrs doms months dows : List Int),
      pySplitWsC (stripC cron.toList) = f0 :: f1 :: f2 :: f3 :: f4 :: rest →
      parseCronField f0 0 59 = some mins → parseCronField f1 0 23 = some hrs →
      parseCronField f2 1 31 = some doms → parseCronField f3 1 12 = some months →
      parseCronField f4 0 6 = some dows →
      (cronMatches cron dt = some true ↔
        ((dt.minute : Int) ∈ mins ∧ (dt.hour : Int) ∈ hrs ∧ (dt.day : Int) ∈ doms ∧
         (dt.month : Int) ∈ months ∧ (((dt.weekday + 1) % 7 : Nat) : Int) ∈ dows))) ∧
    (∀ dt : PyDatetime, dt.minute = 0 → dt.hour = 9 → dt.weekday = 0 →
      1 ≤ dt.day → dt.day ≤ 31 → 1 ≤ dt.month → dt.month ≤ 12 →
      cronMatches "0 9 * * 1" dt = some true) ∧
    (∀ dt : PyDatetime, dt.minute = 1 → cronMatches "0 9 * * 1" dt = some false) ∧
    (∀ dt : PyDatetime, dt.weekday = 1 → cronMatches "0 9 * * 1" dt = some false) := by
  have hsplit9 : pySplitWsC (stripC ("0 9 * * 1").toList)
      = [['0'], ['9'], ['*'], ['*'], ['1']] := rfl
  refine ⟨?_, ?_, ?_, ?_, ?_, ?_, ?_, ?_, ?_⟩
  · intro lo hi x l h
    rw [parseCronField_star] at h
    obtain rfl : pyRangePos lo (hi + 1) 1 = l := by simpa using h
    rw [mem_pyRangePos_one]
    omega
  · intro part lo hi ac rest a b x l hs hd hsplit ha hb h
    unfold parseCronPart at h
    rw [hs, hd] at h
    simp only [Bool.false_eq_true, if_false, if_true] at h
    rw [hsplit] at h
    dsimp only at h
    rw [ha, hb] at h
    dsimp only at h
    unfold pyRange at h
    simp only [if_neg (by norm_num : ¬ (1 : Int) = 0),
      if_pos (by norm_num : (0 : Int) < 1)] at h
    obtain rfl : pyRangePos a (b + 1) 1 = l := by simpa using h
    rw [mem_pyRangePos_one]
    omega
  · intro part lo hi bse rest start stp x l hs hsplit hstart hstp hpos h
    unfold parseCronPart at h
    rw [hs] at h
    simp only [if_true] at h
    rw [hsplit] at h
    dsimp only at h
    rw [hstart, hstp] at h
    dsimp only at h
    unfold pyRange at h
    rw [if_neg (by omega : ¬ stp = 0), if_pos hpos] at h
    obtain rfl : pyRangePos start (hi + 1) stp.toNat = l := by simpa using h
    rw [mem_pyRangePos start (hi + 1) stp.toNat (by omega)]
    constructor
    · rintro ⟨i, rfl, hlt⟩
      exact ⟨i, by rw [Int.toNat_of_nonneg (by omega)], by omega⟩
    · rintro ⟨i, rfl, hle⟩
      exact ⟨i, by rw [Int.toNat_of_nonneg (by omega)], by omega⟩
  · intro part lo hi n hs hd hstar hn
    unfold parseCronPart
    rw [hs, hd]
    simp [hstar, hn]
  · intro s lo hi x l h
    rw [parseCronField_fold_mem lo hi (splitOnC ',' s) [] l h x]
    simp
  · intro cron dt f0 f1 f2 f3 f4 rest mins hrs doms months dows hsplit h0 h1 h2 h3 h4
    exact cronMatches_spec cron dt f0 f1 f2 f3 f4 rest mins hrs doms months dows
      hsplit h0 h1 h2 h3 h4
  · intro dt hm hh hw hd1 hd2 hm1 hm2
    unfold cronMatches
    rw [hsplit9]
    dsimp only
    rw [show parseCronField ['0'] 0 59 = some [0] from rfl,
        show parseCronField ['9'] 0 23 = some [9] from rfl,
        parseCronField_star 1 31, parseCronField_star 1 12,
        show parseCronField ['1'] 0 6 = some [1] from rfl]
    dsimp only
    simp [List.elem_iff, mem_pyRangePos_one, hm, hh, hw]
    omega
  · intro dt hm
    unfold cronMatches
    rw [hsplit9]
    dsimp only
    rw [show parseCronField ['0'] 0 59 = some [0] from rfl,
        show parseCronField ['9'] 0 23 = some [9] from rfl,
        parseCronField_star 1 31, parseCronField_star 1 12,
        show parseCronField ['1'] 0 6 = some [1] from rfl]
    dsimp only
    simp [List.elem_iff, hm]
  · intro dt hw
    unfold cronMatches
    rw [hsplit9]
    dsimp only
    rw [show parseCronField ['0'] 0 59 = some [0] from rfl,
        show parseCronField ['9'] 0 23 = some [9] from rfl,
        parseCronField_star 1 31, parseCronField_star 1 12,
        show parseCronField ['1'] 0 6 = some [1] from rfl]
    dsimp only
    simp [List.elem_iff, hw]

/-- Witness for C5 at concrete timestamps: Monday 2025-10-13 09:00 matches
`0 9 * * 1`, Monday 09:01 and Tuesday 09:00 do not. -/
theorem cron_field_expansion_and_match_witness :
    cronMatches "0 9 * * 1" ⟨0, 2025, 10, 13, 9, 0, 0⟩ = some true ∧
    cronMatches "0 9 * * 1" ⟨0, 2025, 10, 13, 9, 1, 0⟩ = some false ∧
    cronMatches "0 9 * * 1" ⟨0, 2025, 10, 14, 9, 0, 1⟩ = some false := by
  refine ⟨?_, ?_, ?_⟩
  · exact cron_field_expansion_and_match.2.2.2.2.2.2.1 ⟨0, 2025, 10, 13, 9, 0, 0⟩
      rfl rfl rfl (by norm_num) (by norm_num) (by norm_num) (by norm_num)
  · exact cron_field_expansion_and_match.2.2.2.2.2.2.2.1 ⟨0, 2025, 10, 13, 9, 1, 0⟩ rfl
  · exact cron_field_expansion_and_match.2.2.2.2.2.2.2.2 ⟨0, 2025, 10, 14, 9, 0, 1⟩ rfl

end EventEngine

namespace EventEngine

/-! ## C4: a cron event fires at most once per matching minute -/

/-- Master structural lemma: one `_is_due` call either leaves the state
unchanged or (only on a `True` cron answer) adds its own minute marker. -/
theorem isDue_state (st : EngineState) (ev : EventDef) (t : PyDatetime)
    (b : Bool) (st' : EngineState) (h : isDue st ev t = some (b, st')) :
    st' = st ∨ (b = true ∧ st' =
      { st with cronFiredThisMinute := setA st.cronFiredThisMinute (cronCacheKey ev.name t) true }) := by
  unfold isDue at h
  by_cases h1 : ev.event_type ≠ "scheduled"
  · rw [if_pos h1] at h
    simp at h
    exact Or.inl h.2.symm
  · rw [if_neg h1] at h
    cases hs : ev.schedule with
    | none => rw [hs] at h; simp at h; exact Or.inl h.2.symm
    | some sr =>
      rw [hs] at h
      cases sr with
      | interval secs =>
        dsimp only at h
        cases hl : lookupA st.lastFired ev.name with
        | none => rw [hl] at h; simp at h; exact Or.inl h.2.symm
        | some last => rw [hl] at h; simp at h; exact Or.inl h.2.symm
      | cron c =>
        dsimp only at h
        by_cases hk : lookupA st.cronFiredThisMinute (cronCacheKey ev.name t) = some true
        · rw [if_pos hk] at h; simp at h; exact Or.inl h.2.symm
        · rw [if_neg hk] at h
          cases hm : cronMatches c t with
          | none => rw [hm] at h; simp at h
          | some mb =>
            rw [hm] at h
            cases mb with
            | false => simp at h; exact Or.inl h.2.symm
            | true => simp at h; exact Or.inr ⟨h.1, h.2.symm⟩

theorem isDue_false_state (st : EngineState) (ev : EventDef) (t : PyDatetime)
    (st' : EngineState) (h : isDue st ev t = some (false, st')) : st' = st := by
  rcases isDue_state st ev t false st' h with h2 | ⟨h2, _⟩
  · exact h2
  · exact absurd h2 (by simp)

/-- A cron event whose minute marker is already set is reported not due and
the state is unchanged. -/
theorem isDue_cron_fired (st : EngineState) (ev : EventDef) (t : PyDatetime) (c : String)
    (htype : ev.event_type = "scheduled") (hsched : ev.schedule = some (.cron c))
    (hm : lookupA st.cronFiredThisMinute (cronCacheKey ev.name t) = some true) :
    isDue st ev t = some (false, st) := by
  simp [isDue, htype, hsched, hm]

/-- A `True` answer for a cron event records its minute marker. -/
theorem isDue_cron_true (st : EngineState) (ev : EventDef) (t : PyDatetime) (c : String)
    (st' : EngineState)
    (htype : ev.event_type = "scheduled") (hsched : ev.schedule = some (.cron c))
    (h : isDue st ev t = some (true, st')) :
    st' = { st with cronFiredThisMinute := setA st.cronFiredThisMinute (cronCacheKey ev.name t) true } := by
  unfold isDue at h
  rw [if_neg (by simp [htype]), hsched] at h
  dsimp only at h
  by_cases hk : lookupA st.cronFiredThisMinute (cronCacheKey ev.name t) = some true
  · rw [if_pos hk] at h; simp at h
  · rw [if_neg hk] at h
    cases hm : cronMatches c t with
    | none => rw [hm] at h; simp at h
    | some mb =>
      rw [hm] at h
      cases mb with
      | false => simp at h
      | true => simp at h; exact h.symm

/-- A cron event whose marker is unset and whose rule matches is reported
due, setting the marker. -/
theorem isDue_cron_fires (st : EngineState) (ev : EventDef) (t : PyDatetime) (c : String)
    (htype : ev.event_type = "scheduled") (hsched : ev.schedule = some (.cron c))
    (hm : lookupA st.cronFiredThisMinute (cronCacheKey ev.name t) ≠ some true)
    (hc : cronMatches c t = some true) :
    isDue st ev t = some (true,
      { st with cronFiredThisMinute := setA st.cronFiredThisMinute (cronCacheKey ev.name t) true }) := by
  simp [isDue, htype, hsched, hm, hc]

theorem cronCacheKey_ne (name : String) (t t2 : PyDatetime)
    (h : minuteKey t ≠ minuteKey t2) : cronCacheKey name t ≠ cronCacheKey name t2 := by
  unfold cronCacheKey
  intro e
  apply h
  have h2 := congrArg String.data e
  simp [String.data_append] at h2
  exact String.ext h2

/-- Once the minute marker of bucket `k` is set, every further evaluation in
bucket `k` answers not-due and leaves the state unchanged. -/
theorem evalDueSeq_fired_all_false (ev : EventDef) (c k : String)
    (htype : ev.event_type = "scheduled") (hsched : ev.schedule = some (.cron c))
    (ts : List PyDatetime) :
    ∀ st bs st', (∀ t ∈ ts, minuteKey t = k) →
      lookupA st.cronFiredThisMinute (ev.name ++ ":" ++ k) = some true →
      evalDueSeq st ev ts = some (bs, st') → bs.count true = 0 ∧ st' = st := by
  induction ts with
  | nil =>
    intro st bs st' _ _ h
    unfold evalDueSeq at h
    simp at h
    obtain ⟨rfl, rfl⟩ := h
    simp
  | cons t ts ih =>
    intro st bs st' hk hf h
    have hkt : minuteKey t = k := hk t (List.mem_cons_self t ts)
    have hdue : isDue st ev t = some (false, st) := by
      apply isDue_cron_fired st ev t c htype hsched
      unfold cronCacheKey
      rw [hkt]
      exact hf
    unfold evalDueSeq at h
    rw [hdue] at h
    dsimp only at h
    cases he : evalDueSeq st ev ts with
    | none => rw [he] at h; simp at h
    | some p =>
      rw [he] at h
      obtain ⟨bs2, st2⟩ := p
      simp at h
      obtain ⟨rfl, rfl⟩ := h
      have := ih st bs2 st2 (fun t2 ht2 => hk t2 (List.mem_cons_of_mem t ht2)) hf he
      simp [this.1, this.2]

/-- Keys untouched by a sequence of evaluations keep their marker value. -/
theorem evalDueSeq_other_key (ev : EventDef) (ts : List PyDatetime) :
    ∀ st bs st' key, evalDueSeq st ev ts = some (bs, st') →
      (∀ t ∈ ts, key ≠ cronCacheKey ev.name t) →
      lookupA st'.cronFiredThisMinute key = lookupA st.cronFiredThisMinute key := by
  induction ts with
  | nil =>
    intro st bs st' key h _
    unfold evalDueSeq at h
    simp at h
    rw [h.2]
  | cons t ts ih =>
    intro st bs st' key h hk
    unfold evalDueSeq at h
    cases hd : isDue st ev t with
    | none => rw [hd] at h; simp at h
    | some p =>
      rw [hd] at h
      obtain ⟨b, st1⟩ := p
      dsimp only at h
      cases he : evalDueSeq st1 ev ts with
      | none => rw [he] at h; simp at h
      | some p2 =>
        rw [he] at h
        obtain ⟨bs2, st2⟩ := p2
        simp at h
        obtain ⟨rfl, rfl⟩ := h
        have step : lookupA st1.cronFiredThisMinute key = lookupA st.cronFiredThisMinute key := by
          rcases isDue_state st ev t b st1 hd with rfl | ⟨_, rfl⟩
          · rfl
          · exact lookupA_setA_ne st.cronFiredThisMinute (cronCacheKey ev.name t) key true
              (hk t (List.mem_cons_self t ts))
        rw [ih st1 bs2 st2 key he (fun t2 ht2 => hk t2 (List.mem_cons_of_mem t ht2)), step]

/-- C4: across any sequence of due-ness evaluations whose timestamps share
one minute bucket, a cron event is reported due at most once; and after
such a sequence the event is reported due again at a timestamp of a
different, matching minute bucket whose marker was not already set. -/
theorem cron_due_once_per_minute (ev : EventDef) (c k : String)
    (htype : ev.event_type = "scheduled") (hsched : ev.schedule = some (.cron c)) :
    (∀ st ts bs st', (∀ t ∈ ts, minuteKey t = k) →
       evalDueSeq st ev ts = some (bs, st') → bs.count true ≤ 1) ∧
    (∀ st ts bs st' t2, (∀ t ∈ ts, minuteKey t = k) →
       evalDueSeq st ev ts = some (bs, st') →
       minuteKey t2 ≠ k →
       lookupA st.cronFiredThisMinute (cronCacheKey ev.name t2) ≠ some true →
       cronMatches c t2 = some true →
       isDue st' ev t2 = some (true,
         { st' with cronFiredThisMinute := setA st'.cronFiredThisMinute (cronCacheKey ev.name t2) true })) := by
  constructor
  · intro st ts
    induction ts generalizing st with
    | nil =>
      intro bs st' _ h
      unfold evalDueSeq at h
      simp at h
      rw [h.1]
      simp
    | cons t ts ih =>
      intro bs st' hk h
      unfold evalDueSeq at h
      cases hd : isDue st ev t with
      | none => rw [hd] at h; simp at h
      | some p =>
        rw [hd] at h
        obtain ⟨b, st1⟩ := p
        dsimp only at h
        cases he : evalDueSeq st1 ev ts with
        | none => rw [he] at h; simp at h
        | some p2 =>
          rw [he] at h
          obtain ⟨bs2, st2⟩ := p2
          simp at h
          obtain ⟨rfl, rfl⟩ := h
          cases b with
          | false =>
            rw [isDue_false_state st ev t st1 hd] at he
            have := ih st bs2 st2 (fun t2 ht2 => hk t2 (List.mem_cons_of_mem t ht2)) he
            simpa using this
          | true =>
            obtain rfl : st1 = { st with cronFiredThisMinute := setA st.cronFiredThisMinute (cronCacheKey ev.name t) true } :=
              isDue_cron_true st ev t c st1 htype hsched hd
            have hkt : minuteKey t = k := hk t (List.mem_cons_self t ts)
            have hset : lookupA (setA st.cronFiredThisMinute (cronCacheKey ev.name t) true)
                (ev.name ++ ":" ++ k) = some true := by
              rw [show ev.name ++ ":" ++ k = cronCacheKey ev.name t by rw [cronCacheKey, hkt]]
              exact lookupA_setA_self st.cronFiredThisMinute (cronCacheKey ev.name t) true
            have hall := evalDueSeq_fired_all_false ev c k htype hsched ts
              _ bs2 st2 (fun t2 ht2 => hk t2 (List.mem_cons_of_mem t ht2)) hset he
            simp [hall.1]
  · intro st ts bs st' t2 hk h hneq hmark hc
    have hpres : lookupA st'.cronFiredThisMinute (cronCacheKey ev.name t2)
        = lookupA st.cronFiredThisMinute (cronCacheKey ev.name t2) := by
      apply evalDueSeq_other_key ev ts st bs st' (cronCacheKey ev.name t2) h
      intro t ht
      apply cronCacheKey_ne
      rw [hk t ht]
      exact hneq
    exact isDue_cron_fires st' ev t2 c htype hsched (by rw [hpres]; exact hmark) hc

/-- Witness for C4 at concrete inputs: two evaluations inside the matching
minute 09:00 report due exactly once, and an evaluation in the next
matching minute 09:01 reports due again. -/
theorem cron_due_once_per_minute_witness :
    evalDueSeq { } evCr [dtC1, dtC2] = some ([true, false], stCr1) ∧
    ([true, false] : List Bool).count true ≤ 1 ∧
    isDue stCr1 evCr dtC3 = some (true, { stCr1 with cronFiredThisMinute := setA stCr1.cronFiredThisMinute (cronCacheKey evCr.name dtC3) true }) := by
  refine ⟨rfl, ?_, ?_⟩
  · exact (cron_due_once_per_minute evCr "* 9 * * *" "202501010900" rfl rfl).1
      { } [dtC1, dtC2] [true, false] stCr1 (by decide) rfl
  · exact (cron_due_once_per_minute evCr "* 9 * * *" "202501010900" rfl rfl).2
      { } [dtC1, dtC2] [true, false] stCr1 dtC3 (by decide) rfl (by decide) (by decide) rfl

end EventEngine

namespace EventEngine

/-! ## C6 and C9: the schedule compiler on interval phrases -/

/-- The unit factor produced by branch 1 is one of the three unit lengths
(1 for seconds, 60 for minutes, 3600 for hours). -/
theorem matchEveryNUnit_unit {cs : List Char} {n u : Nat}
    (h : matchEveryNUnit cs = some (n, u)) : u = 1 ∨ u = 60 ∨ u = 3600 := by
  unfold matchEveryNUnit at h
  rcases hl : litP "every".toList cs with _ | r1 <;> rw [hl] at h
  · simp at h
  dsimp only at h
  rcases hw : ws1 r1 with _ | r2 <;> rw [hw] at h
  · simp at h
  dsimp only at h
  rcases hd : digits1 r2 with _ | ⟨n2, r3⟩ <;> rw [hd] at h
  · simp at h
  dsimp only at h
  rcases hw2 : ws1 r3 with _ | r4 <;> rw [hw2] at h
  · simp at h
  dsimp only at h
  split_ifs at h <;> simp_all

/-- C6: a text whose preprocessed form matches the case-insensitive
`every N seconds|minutes|hours` phrase compiles to an `Interval` rule
whose seconds are the numeral times the unit length (1, 60 or 3600), and
a text matched by none of the six recognized phrase forms fails with a
schedule-syntax error instead of producing a default rule. -/
theorem interval_phrase_compiles_and_unmatched_fails :
    (∀ text n u, matchEveryNUnit (preprocess text) = some (n, u) →
      NLSchedule.parse text = .ok (.interval (n * u)) ∧ (u = 1 ∨ u = 60 ∨ u = 3600)) ∧
    (∀ text, matchEveryNUnit (preprocess text) = none →
      matchEveryHour (preprocess text) = false →
      matchDowAt (preprocess text) = none →
      matchDayAt (preprocess text) = none →
      matchDowListAt (preprocess text) = none →
      matchFirstDay (preprocess text) = none →
      NLSchedule.parse text = .error ("Cannot parse schedule: " ++ text)) := by
  constructor
  · intro text n u h
    refine ⟨?_, matchEveryNUnit_unit h⟩
    simp only [NLSchedule.parse]
    rw [h]
  · intro text h1 h2 h3 h4 h5 h6
    simp only [NLSchedule.parse]
    rw [h1, h2, h3, h4, h5, h6]
    simp

/-- Witness for C6: `every 10 minutes` compiles to a 600-second interval,
and the unrecognized text `whenever` is rejected. -/
theorem interval_phrase_compiles_and_unmatched_fails_witness :
    NLSchedule.parse "every 10 minutes" = .ok (.interval 600) ∧
    NLSchedule.parse "whenever" = .error "Cannot parse schedule: whenever" := by
  constructor
  · have h := (interval_phrase_compiles_and_unmatched_fails.1 "every 10 minutes" 10 60 rfl).1
    simpa using h
  · exact interval_phrase_compiles_and_unmatched_fails.2 "whenever" rfl rfl rfl rfl rfl rfl

/-- Counterexample to C9 as stated: `every 0 seconds` compiles successfully
to an `Interval` rule whose seconds are 0, which is not strictly
positive. -/
theorem interval_seconds_zero_counterexample :
    NLSchedule.parse "every 0 seconds" = .ok (.interval 0) ∧ ¬ 0 < (0 : Nat) :=
  ⟨rfl, by norm_num⟩

/-- C9 amended: every `Interval` rule produced by successful compilation has
seconds equal to 3600 (the `every hour` phrase) or to the matched numeral
times a positive unit length; the seconds are strictly positive whenever
the matched numeral is nonzero, but the numeral 0 is accepted and yields
seconds 0. -/
theorem interval_seconds_positive_unless_zero_numeral :
    ∀ text s, NLSchedule.parse text = .ok (.interval s) →
    (s = 3600 ∨ ∃ n u, matchEveryNUnit (preprocess text) = some (n, u) ∧ s = n * u ∧ 0 < u) ∧
    (∀ n u, matchEveryNUnit (preprocess text) = some (n, u) → 0 < n → 0 < s) := by
  intro text s h
  simp only [NLSchedule.parse] at h
  cases hm : matchEveryNUnit (preprocess text) with
  | some nu =>
    rw [hm] at h
    dsimp only at h
    obtain ⟨n2, u2⟩ := nu
    simp at h
    constructor
    · right
      refine ⟨n2, u2, rfl, h.symm, ?_⟩
      rcases matchEveryNUnit_unit hm with rfl | rfl | rfl <;> norm_num
    · intro n u hnu hn
      simp at hnu
      obtain ⟨rfl, rfl⟩ := hnu
      rcases matchEveryNUnit_unit hm with rfl | rfl | rfl <;> omega
  | none =>
    rw [hm] at h
    dsimp only at h
    by_cases hh : matchEveryHour (preprocess text)
    · rw [if_pos hh] at h
      simp at h
      exact ⟨Or.inl h.symm, fun n u hnu _ => by simp at hnu⟩
    · rw [if_neg hh] at h
      exfalso
      cases h3 : matchDowAt (preprocess text) <;> rw [h3] at h <;> dsimp only at h
      · cases h4 : matchDayAt (preprocess text) <;> rw [h4] at h <;> dsimp only at h
        · cases h5 : matchDowListAt (preprocess text) <;> rw [h5] at h <;> dsimp only at h
          · cases h6 : matchFirstDay (preprocess text) <;> rw [h6] at h <;> dsimp only at h
            · simp at h
            · simp at h
          · simp at h
        · simp at h
      · simp at h

/-- Witness for amended C9: `every 3 minutes` compiles to 180 seconds, which
is positive because the numeral 3 is. -/
theorem interval_seconds_positive_unless_zero_numeral_witness :
    0 < 180 ∧
    (180 = 3600 ∨ ∃ n u, matchEveryNUnit (preprocess "every 3 minutes") = some (n, u) ∧
      180 = n * u ∧ 0 < u) :=
  ⟨(interval_seconds_positive_unless_zero_numeral "every 3 minutes" 180 rfl).2
      3 60 rfl (by norm_num),
    (interval_seconds_positive_unless_zero_numeral "every 3 minutes" 180 rfl).1⟩

end EventEngine

namespace EventEngine

/-! ## C7: missing action fails the folder, the scan continues -/

/-- `load` is the per-folder parse, folded in scan order: the accumulator
only ever grows by the successes. -/
theorem loadEvents_eq_filterMap (fs : PyFs) (folders : List JobFolder) :
    loadEvents fs folders = folders.filterMap
      (fun f => f.manifest.bind (fun d => (parseEventData fs f.name f.dir d).toOption)) := by
  have general : ∀ (fl : List JobFolder) (acc : List EventDef),
      fl.foldl (fun acc f =>
        match f.manifest with
        | none => acc
        | some data =>
          match parseEventData fs f.name f.dir data with
          | .ok ev => acc ++ [ev]
          | .error _ => acc) acc
      = acc ++ fl.filterMap
          (fun f => f.manifest.bind (fun d => (parseEventData fs f.name f.dir d).toOption)) := by
    intro fl
    induction fl with
    | nil => intro acc; simp
    | cons f fl ih =>
      intro acc
      rw [List.foldl_cons, List.filterMap_cons, ih]
      cases hm : f.manifest with
      | none => simp
      | some data =>
        cases hp : parseEventData fs f.name f.dir data with
        | ok ev => simp [hp, Except.toOption]
        | error e => simp [hp, Except.toOption]
  simpa using general folders []

/-- C7: a manifest with neither an `action` nor a `script` fails to load with
a manifest error, and the directory scan is pointwise — it yields exactly
the per-folder successes, so one failing folder never affects what any
other folder contributes. -/
theorem manifest_missing_action_fails_scan_continues :
    (∀ fs dirName dir data, data.action = none → data.script = none →
      ∃ msg, parseEventData fs dirName dir data = .error msg) ∧
    (∀ fs folders, loadEvents fs folders = folders.filterMap
      (fun f => f.manifest.bind (fun d => (parseEventData fs f.name f.dir d).toOption))) := by
  constructor
  · intro fs dirName dir data ha hs
    unfold parseEventData
    cases ht : data.type with
    | none => exact ⟨_, rfl⟩
    | some ty =>
      rw [ha, hs]
      simp
  · exact fun fs folders => loadEvents_eq_filterMap fs folders

/-- Witness for C7: a directory with a good folder, a folder whose manifest
has neither action nor script, and another good folder loads exactly the
two good folders. -/
theorem manifest_missing_action_fails_scan_continues_witness :
    (∃ msg, parseEventData fs0 "bad" "d2" { type := some "manual" } = .error msg) ∧
    loadEvents fs0 [folderG1, folderBad, folderG2] = loadEvents fs0 [folderG1, folderG2] ∧
    (loadEvents fs0 [folderG1, folderBad, folderG2]).length = 2 := by
  refine ⟨manifest_missing_action_fails_scan_continues.1 fs0 "bad" "d2"
    { type := some "manual" } rfl rfl, ?_, ?_⟩
  · rw [manifest_missing_action_fails_scan_continues.2 fs0 [folderG1, folderBad, folderG2],
      manifest_missing_action_fails_scan_continues.2 fs0 [folderG1, folderG2]]
    rfl
  · rw [manifest_missing_action_fails_scan_continues.2 fs0 [folderG1, folderBad, folderG2]]
    decide

/-! ## C10: the schedule key of a scheduled manifest -/

/-- Counterexample to C10 as stated: a manifest declaring `type: scheduled`
without any `schedule` key loads successfully (no compiled rule), rather
than failing to load. -/
theorem scheduled_without_schedule_loads_counterexample :
    parseEventData fs0 "sch" "d" dataC10 = .ok evC10 ∧ evC10.schedule = none :=
  ⟨rfl, rfl⟩

/-- C10 amended: the schedule key is optional even for scheduled manifests —
a scheduled manifest without one loads with no compiled rule (and such an
event is never due) — while the schedule text is compiled only for
scheduled manifests: a non-scheduled manifest loads with no compiled rule
whatever its schedule text says. -/
theorem schedule_optional_compiled_only_when_scheduled :
    (∀ fs n d data, data.type = some "scheduled" → data.schedule = none →
      (data.action ≠ none ∨ data.script ≠ none) →
      ((parseEventData fs n d data).toOption.isSome = true ∧
       ∀ ev, parseEventData fs n d data = .ok ev → ev.schedule = none)) ∧
    (∀ fs n d data ty, data.type = some ty → ty ≠ "scheduled" →
      (data.action ≠ none ∨ data.script ≠ none) →
      ((parseEventData fs n d data).toOption.isSome = true ∧
       ∀ ev, parseEventData fs n d data = .ok ev → ev.schedule = none)) ∧
    (∀ (st : EngineState) (ev : EventDef) (now : PyDatetime),
      ev.schedule = none → isDue st ev now = some (false, st)) := by
  refine ⟨?_, ?_, ?_⟩
  · intro fs n d data ht hsched hpresent
    have hfalse : (data.action.isNone && data.script.isNone) = false := by
      rcases hpresent with h | h <;> cases ha : data.action <;> cases hs : data.script <;>
        simp_all
    unfold parseEventData
    rw [ht]
    dsimp only
    rw [hfalse]
    simp only [Bool.false_eq_true, if_false]
    rw [hsched]
    dsimp only [schedTruthy]
    constructor
    · rfl
    · intro ev hev
      simp at hev
      rw [← hev]
  · intro fs n d data ty ht hty hpresent
    have hfalse : (data.action.isNone && data.script.isNone) = false := by
      rcases hpresent with h | h <;> cases ha : data.action <;> cases hs : data.script <;>
        simp_all
    have htysched : decide (ty = "scheduled") = false := by simp [hty]
    unfold parseEventData
    rw [ht]
    dsimp only
    rw [hfalse]
    simp only [Bool.false_eq_true, if_false]
    rw [htysched, Bool.and_false]
    simp only [Bool.false_eq_true, if_false]
    constructor
    · rfl
    · intro ev hev
      simp at hev
      rw [← hev]
  · intro st ev now hsched
    by_cases ht : ev.event_type = "scheduled"
    · simp [isDue, ht, hsched]
    · simp [isDue, ht]

/-- Witness for amended C10 at concrete inputs. -/
theorem schedule_optional_compiled_only_when_scheduled_witness :
    parseEventData fs0 "sch" "d" dataC10 = .ok evC10 ∧
    (parseEventData fs0 "sch" "d" dataC10).toOption.isSome = true ∧
    isDue { } evC10 dtC1 = some (false, { }) :=
  ⟨rfl,
   (schedule_optional_compiled_only_when_scheduled.1 fs0 "sch" "d" dataC10
     rfl rfl (Or.inr (by decide))).1,
   schedule_optional_compiled_only_when_scheduled.2.2 { } evC10 dtC1 rfl⟩

/-! ## C8: file-reference resolution of action parameters -/

/-- C8: a string parameter naming a file that exists and resolves inside the
job folder is replaced by the file contents — a `.txt` name by the
cleaned line list, any other name by the stripped text — while a
parameter whose path does not exist, or exists but resolves outside the
folder, passes through unchanged; and every cleaned line is nonempty and
does not start with `#`. -/
theorem param_file_resolution :
    (∀ fs dir s raw, fs.read (fs.resolvePath dir s) = some raw →
      ((fs.resolveDir dir).toList).isPrefixOf (fs.resolvePath dir s).toList = true →
      (((".txt".toList).isSuffixOf s.toList = true →
         resolveValue fs dir (.pyStr s) = .pyList (cleanLines raw)) ∧
       ((".txt".toList).isSuffixOf s.toList = false →
         resolveValue fs dir (.pyStr s) = .pyStr (String.mk (stripC raw.toList))))) ∧
    (∀ fs dir s, fs.read (fs.resolvePath dir s) = none →
      resolveValue fs dir (.pyStr s) = .pyStr s) ∧
    (∀ fs dir s raw, fs.read (fs.resolvePath dir s) = some raw →
      ((fs.resolveDir dir).toList).isPrefixOf (fs.resolvePath dir s).toList = false →
      resolveValue fs dir (.pyStr s) = .pyStr s) ∧
    (∀ raw l, l ∈ cleanLines raw → ∃ cs, l = String.mk cs ∧ cs ≠ [] ∧ cs.head? ≠ some '#') := by
  refine ⟨?_, ?_, ?_, ?_⟩
  · intro fs dir s raw hread hpre
    constructor
    · intro hsuf
      unfold resolveValue
      dsimp only
      rw [hread]
      dsimp only
      rw [if_pos hpre, if_pos hsuf]
    · intro hsuf
      unfold resolveValue
      dsimp only
      rw [hread]
      dsimp only
      rw [if_pos hpre, if_neg (by rw [hsuf]; exact Bool.false_ne_true)]
  · intro fs dir s hread
    unfold resolveValue
    dsimp only
    rw [hread]
  · intro fs dir s raw hread hpre
    unfold resolveValue
    dsimp only
    rw [hread]
    dsimp only
    rw [if_neg (by rw [hpre]; exact Bool.false_ne_true)]
  · intro raw l hl
    unfold cleanLines at hl
    simp only [List.mem_map, List.mem_filter] at hl
    obtain ⟨cs, ⟨hmem, hkeep⟩, rfl⟩ := hl
    refine ⟨cs, rfl, ?_, ?_⟩
    · intro hnil
      rw [hnil] at hkeep
      simp at hkeep
    · cases cs with
      | nil => simp at hkeep
      | cons c t =>
        simp at hkeep
        simp [hkeep]

/-- Witness for C8: the `.txt` list resolution, the stripped-text
resolution, and the unchanged pass-through of a missing path, all at
concrete inputs. -/
theorem param_file_resolution_witness :
    resolveValue fsW "job" (.pyStr "recips.txt") = .pyList ["alice@x", "bob@y"] ∧
    resolveValue fsW "job" (.pyStr "body.md") = .pyStr "hello" ∧
    resolveValue fsW "job" (.pyStr "missing.txt") = .pyStr "missing.txt" := by
  refine ⟨?_, ?_, ?_⟩
  · have h := (param_file_resolution.1 fsW "job" "recips.txt"
      "alice@x\n# comment\n\nbob@y\n" rfl rfl).1 rfl
    rw [h]
    rfl
  · have h := (param_file_resolution.1 fsW "job" "body.md" "  hello \n" rfl rfl).2 rfl
    rw [h]
    rfl
  · exact param_file_resolution.2.1 fsW "job" "missing.txt" rfl

end EventEngine

namespace EventEngine

/-! ## C1: which dispatch failures are non-fatal -/

theorem isDue_preserves_events_lastFired (st : EngineState) (ev : EventDef)
    (t : PyDatetime) (b : Bool) (st1 : EngineState) (h : isDue st ev t = some (b, st1)) :
    st1.events = st.events ∧ st1.lastFired = st.lastFired := by
  rcases isDue_state st ev t b st1 h with rfl | ⟨_, rfl⟩
  · exact ⟨rfl, rfl⟩
  · exact ⟨rfl, rfl⟩

theorem isDue_isSome (st : EngineState) (ev : EventDef) (now : PyDatetime)
    (hc : ∀ c, ev.schedule = some (.cron c) → cronMatches c now ≠ none) :
    isDue st ev now ≠ none := by
  unfold isDue
  by_cases h1 : ev.event_type ≠ "scheduled"
  · rw [if_pos h1]; simp
  · rw [if_neg h1]
    cases hs : ev.schedule with
    | none => simp
    | some sr =>
      cases sr with
      | interval secs =>
        dsimp only
        cases lookupA st.lastFired ev.name <;> simp
      | cron c =>
        dsimp only
        by_cases hk : lookupA st.cronFiredThisMinute (cronCacheKey ev.name now) = some true
        · rw [if_pos hk]; simp
        · rw [if_neg hk]
          cases hm : cronMatches c now with
          | none => exact absurd hm (hc c hs)
          | some mb => cases mb <;> simp

theorem tickAux_preserves_events (w : DispatchWorld) (now : PyDatetime)
    (l : List EventDef) : ∀ st, (tickAux w now st l).1.events = st.events := by
  induction l with
  | nil => intro st; rfl
  | cons ev rest ih =>
    intro st
    unfold tickAux
    by_cases ha : ev.active
    · rw [if_pos ha]
      cases hd : isDue st ev now with
      | none => rfl
      | some p =>
        obtain ⟨b, st1⟩ := p
        have hpres := (isDue_preserves_events_lastFired st ev now b st1 hd).1
        cases b with
        | true =>
          dsimp only
          cases hdp : pyDispatch w ev with
          | ok r => rw [ih]; exact hpres
          | error e => exact hpres
        | false =>
          dsimp only
          rw [ih]
          exact hpres
    · rw [if_neg ha]
      exact ih st

theorem tick_preserves_events (w : DispatchWorld) (st : EngineState) (now : PyDatetime) :
    (tick w st now).1.events = st.events :=
  tickAux_preserves_events w now st.events st

theorem runSteps_preserves_events (w : DispatchWorld) (times : List PyDatetime) :
    ∀ st, (runSteps w st times).1.events = st.events := by
  induction times with
  | nil => intro st; rfl
  | cons t ts ih =>
    intro st
    unfold runSteps
    by_cases hr : st.running
    · rw [if_pos hr]
      cases htk : tick w st t with
      | mk st1 exc =>
        cases exc with
        | none =>
          dsimp only
          rw [ih st1]
          have := tick_preserves_events w st t
          rw [htk] at this
          exact this
        | some e =>
          dsimp only
          have := tick_preserves_events w st t
          rw [htk] at this
          exact this
    · rw [if_neg hr]

/-- A tick over events whose dispatches all return (rather than raise), and
whose cron rules all evaluate, finishes every event with no exception. -/
theorem tickAux_no_exception (w : DispatchWorld) (now : PyDatetime) (l : List EventDef)
    (hdisp : ∀ ev ∈ l, ∃ r, pyDispatch w ev = .ok r)
    (hcron : ∀ ev ∈ l, ∀ c, ev.schedule = some (.cron c) → cronMatches c now ≠ none) :
    ∀ st, (tickAux w now st l).2 = none := by
  induction l with
  | nil => intro st; rfl
  | cons ev rest ih =>
    intro st
    have ihr := ih (fun e he => hdisp e (List.mem_cons_of_mem ev he))
      (fun e he => hcron e (List.mem_cons_of_mem ev he))
    unfold tickAux
    by_cases ha : ev.active
    · rw [if_pos ha]
      cases hd : isDue st ev now with
      | none =>
        exact absurd hd (isDue_isSome st ev now
          (hcron ev (List.mem_cons_self ev rest)))
      | some p =>
        obtain ⟨b, st1⟩ := p
        cases b with
        | true =>
          dsimp only
          obtain ⟨r, hr⟩ := hdisp ev (List.mem_cons_self ev rest)
          rw [hr]
          exact ihr _
        | false =>
          dsimp only
          exact ihr st1
    · rw [if_neg ha]
      exact ihr st

theorem runSteps_no_exception (w : DispatchWorld) (times : List PyDatetime) :
    ∀ st, (∀ ev ∈ st.events, ∃ r, pyDispatch w ev = .ok r) →
      (∀ ev ∈ st.events, ∀ t ∈ times, ∀ c, ev.schedule = some (.cron c) →
        cronMatches c t ≠ none) →
      (runSteps w st times).2 = none := by
  induction times with
  | nil => intro st _ _; rfl
  | cons t ts ih =>
    intro st hdisp hcron
    unfold runSteps
    by_cases hr : st.running
    · rw [if_pos hr]
      cases htk : tick w st t with
      | mk st1 exc =>
        have hexc : exc = none := by
          have := tickAux_no_exception w t st.events
            (fun e he => hdisp e he)
            (fun e he c hc => hcron e he t (List.mem_cons_self t ts) c hc) st
          rw [show tickAux w t st st.events = (st1, exc) from htk] at this
          exact this
        subst hexc
        dsimp only
        have hev : st1.events = st.events := by
          have := tick_preserves_events w st t
          rw [htk] at this
          exact this
        exact ih st1 (fun e he => hdisp e (hev ▸ he))
          (fun e he t2 ht2 c hc => hcron e (hev ▸ he) t2 (List.mem_cons_of_mem t ht2) c hc)
    · rw [if_neg hr]

/-- Counterexample to C1 as stated: an exception raised while loading and
executing a script module escapes `_dispatch`, and the polling loop
terminates with it instead of continuing to later ticks. -/
theorem script_exec_error_aborts_loop_counterexample :
    pyDispatch worldCrash evS = .error "exception raised while executing script module" ∧
    (runEngine worldCrash { events := [evS] } [dtC1, dtC3]).2
      = some "exception raised while executing script module" :=
  ⟨rfl, rfl⟩

/-- C1 amended: a raised tool-call error, a missing script file and a
missing script entry point are each non-fatal (`_dispatch` returns
normally); the registry — and with it every `active` flag — is never
modified by a tick or by the loop; and when every dispatch returns
normally (and the active cron rules evaluate), the loop completes every
tick of its schedule with no exception.  An error raised while executing
the script module or its `handle` call, by contrast, escapes and aborts
the loop (see the counterexample). -/
theorem dispatch_errors_nonfatal_except_script_execution :
    (∀ w ev t, ev.action.mcp = some t → ∃ r, pyDispatch w ev = .ok r) ∧
    (∀ w ev s, ev.action.mcp = none → ev.action.script = some s →
      w.fs.read (w.fs.resolvePath ev.event_dir s) = none →
      pyDispatch w ev = .ok .scriptNotFound) ∧
    (∀ w ev s m, ev.action.mcp = none → ev.action.script = some s →
      w.scriptLoad (w.fs.resolvePath ev.event_dir s) = .ok m → m.hasHandle = false →
      (w.fs.read (w.fs.resolvePath ev.event_dir s)).isSome = true →
      pyDispatch w ev = .ok .noHandle) ∧
    (∀ w st now, (tick w st now).1.events = st.events) ∧
    (∀ w st times, (runSteps w st times).1.events = st.events) ∧
    (∀ w st times, (∀ ev ∈ st.events, ∃ r, pyDispatch w ev = .ok r) →
      (∀ ev ∈ st.events, ∀ t ∈ times, ∀ c, ev.schedule = some (.cron c) →
        cronMatches c t ≠ none) →
      (runSteps w st times).2 = none ∧ (runEngine w st times).2 = none) := by
  refine ⟨?_, ?_, ?_, ?_, ?_, ?_⟩
  · intro w ev t h
    unfold pyDispatch
    rw [h]
    dsimp only
    cases w.toolCall t (setA ev.resolved_params "_event_name" (.pyStr ev.name)) with
    | ok r => exact ⟨.toolOk r, rfl⟩
    | error e => exact ⟨.toolError e, rfl⟩
  · intro w ev s hm hs hread
    simp [pyDispatch, hm, hs, hread]
  · intro w ev s m hm hs hload hhandle hexists
    simp [pyDispatch, hm, hs, hexists, hload, hhandle]
    exact Option.isSome_iff_ne_none.mp hexists
  · exact fun w st now => tick_preserves_events w st now
  · exact fun w st times => runSteps_preserves_events w times st
  · intro w st times hdisp hcron
    constructor
    · exact runSteps_no_exception w times st hdisp hcron
    · exact runSteps_no_exception w times { st with running := true } hdisp hcron

/-- Witness for amended C1: with an unregistered tool and a missing script
file, a two-tick run completes with no exception and an unchanged
registry. -/
theorem dispatch_errors_nonfatal_except_script_execution_witness :
    (runEngine worldBenign stC1 [dtC1, dtC3]).2 = none ∧
    (runEngine worldBenign stC1 [dtC1, dtC3]).1.events = stC1.events ∧
    pyDispatch worldBenign evM = .ok (.toolError "MCP tool not found") ∧
    pyDispatch worldBenign evS = .ok .scriptNotFound := by
  refine ⟨?_, ?_, rfl, rfl⟩
  · refine (dispatch_errors_nonfatal_except_script_execution.2.2.2.2.2
      worldBenign stC1 [dtC1, dtC3] ?_ ?_).2
    · intro ev he
      simp [stC1] at he
      rcases he with rfl | rfl
      · exact ⟨.toolError "MCP tool not found", rfl⟩
      · exact ⟨.scriptNotFound, rfl⟩
    · intro ev he t ht c hc
      simp [stC1] at he
      rcases he with rfl | rfl <;> simp [evM, evS] at hc
  · exact dispatch_errors_nonfatal_except_script_execution.2.2.2.2.1
      worldBenign { stC1 with running := true } [dtC1, dtC3]

/-! ## C2: what the delete operation purges -/

/-- Counterexample to C2 as stated: deleting an event leaves its
cron-fired-this-minute marker behind, and an event re-created under the
same name within the same minute bucket is suppressed at a matching
timestamp despite having no firing history. -/
theorem delete_leaves_cron_marker_counterexample :
    lookupA (deleteEventFromEngine stC2 "e2").cronFiredThisMinute "e2:202501010900" = some true ∧
    lookupA stC2re.lastFired "e2" = none ∧
    cronMatches "0 9 * * *" dtC1 = some true ∧
    isDue stC2re evC2 dtC1 = some (false, stC2re) :=
  ⟨rfl, rfl, rfl, rfl⟩

/-- C2 amended: the delete operation removes the event from the registry and
purges its last-fired timestamp (leaving other events' timestamps alone),
so a re-created interval event of the same name fires on first
evaluation — but it leaves the cron-fired-this-minute markers untouched,
so a stale marker can suppress a re-created cron event within the same
minute bucket (see the counterexample). -/
theorem delete_purges_registry_and_last_fired_only (st : EngineState) (name : String) :
    (deleteEventFromEngine st name).events = st.events.filter (fun ev => ev.name ≠ name) ∧
    lookupA (deleteEventFromEngine st name).lastFired name = none ∧
    (∀ k, k ≠ name →
      lookupA (deleteEventFromEngine st name).lastFired k = lookupA st.lastFired k) ∧
    (deleteEventFromEngine st name).cronFiredThisMinute = st.cronFiredThisMinute ∧
    (∀ ev now secs, ev.name = name → ev.event_type = "scheduled" →
      ev.schedule = some (.interval secs) →
      isDue (deleteEventFromEngine st name) ev now
        = some (true, deleteEventFromEngine st name)) := by
  refine ⟨rfl, lookupA_delA_self st.lastFired name, ?_, rfl, ?_⟩
  · intro k hk
    exact lookupA_delA_ne st.lastFired name k hk
  · intro ev now secs hname htype hsched
    have hnone : lookupA (deleteEventFromEngine st name).lastFired ev.name = none := by
      rw [hname]
      exact lookupA_delA_self st.lastFired name
    simp [isDue, htype, hsched, hnone]

/-- Witness for amended C2 at concrete inputs: deleting `e2` empties the
registry and its last-fired entry, and a re-created interval event named
`e2` is due at once. -/
theorem delete_purges_registry_and_last_fired_only_witness :
    (deleteEventFromEngine stC2 "e2").events = [] ∧
    lookupA (deleteEventFromEngine stC2 "e2").lastFired "e2" = none ∧
    isDue (deleteEventFromEngine stC2 "e2") evI2 dtC1
      = some (true, deleteEventFromEngine stC2 "e2") := by
  refine ⟨?_, (delete_purges_registry_and_last_fired_only stC2 "e2").2.1,
    (delete_purges_registry_and_last_fired_only stC2 "e2").2.2.2.2 evI2 dtC1 60 rfl rfl rfl⟩
  rw [(delete_purges_registry_and_last_fired_only stC2 "e2").1]
  rfl

end EventEngine
